import Mathlib

/-!
Shallow embedding of the github-insights repository core
(src/core/metrics.py, src/core/rag_answer.py, src/core/cache.py,
src/core/vectorstore.py, src/services/github_service.py) and proofs of the
specification claims about it.

Python dicts that are used as ordered key→count maps are modelled as
insertion-ordered association lists; Python exceptions are modelled with
`Except String`; JSON values with the inductive `Json`; the filesystem used by
the flat file cache with an explicit `FS` state.
-/

namespace GHInsights

/-- JSON values, as produced by `json.load` / consumed by `json.dump`. -/
inductive Json where
  | null
  | bool (b : Bool)
  | num (n : Int)
  | str (s : String)
  | arr (elems : List Json)
  | obj (fields : List (String × Json))
  deriving Repr

/-- Python truthiness of a JSON value (`if cached:` in github_service.py). -/
def Json.truthy : Json → Bool
  | .null => false
  | .bool b => b
  | .num n => n != 0
  | .str s => s != ""
  | .arr l => !l.isEmpty
  | .obj l => !l.isEmpty

/-- A commit object as consumed by the core: only the fields the embedded code
reads.  `date` models `commit["commit"]["author"]["date"]` (`none` = JSON null
or missing); `authorName` models `commit["commit"]["author"]["name"]`
(`none` = JSON null). -/
structure Commit where
  date : Option String
  authorName : Option String
  deriving Repr, DecidableEq

/-! ## Calendar arithmetic (embedding of `datetime`)

`datetime.fromisoformat`, aware-datetime comparison and `isocalendar()` from
the Python standard library, as used by metrics.py and rag_answer.py. -/

def isLeap (y : Nat) : Bool := y % 4 == 0 && (y % 100 != 0 || y % 400 == 0)

def daysInMonth (y m : Nat) : Nat :=
  if m = 2 then (if isLeap y then 29 else 28)
  else if m = 4 ∨ m = 6 ∨ m = 9 ∨ m = 11 then 30
  else 31

/-- Days since 1970-01-01 of a civil date (Hinnant's algorithm; `y ≥ 1`). -/
def daysFromCivil (y m d : Nat) : Int :=
  let yAdj : Int := if m ≤ 2 then (y : Int) - 1 else (y : Int)
  let era : Int := yAdj / 400
  let yoe : Int := yAdj - era * 400
  let mp : Int := ((m : Int) + 9) % 12
  let doy : Int := (153 * mp + 2) / 5 + (d : Int) - 1
  let doe : Int := yoe * 365 + yoe / 4 - yoe / 100 + doy
  era * 146097 + doe - 719468

/-- ISO weekday: 1 = Monday .. 7 = Sunday (1970-01-01 was a Thursday). -/
def isoWeekday (y m d : Nat) : Nat :=
  ((daysFromCivil y m d + 3).emod 7).toNat + 1

/-- Ordinal day of the year (1-based). -/
def dayOfYear (y m d : Nat) : Nat :=
  (List.range (m - 1)).foldl (fun acc i => acc + daysInMonth y (i + 1)) 0 + d

/-- Number of ISO weeks in year `y` (52 or 53). -/
def isoWeeksInYear (y : Nat) : Nat :=
  let wd := isoWeekday y 1 1
  if wd = 4 ∨ (isLeap y ∧ wd = 3) then 53 else 52

/-- `datetime.isocalendar()` restricted to its first two components:
the ISO year and ISO week number of a civil date. -/
def isocalendar (y m d : Nat) : Nat × Nat :=
  let w := (dayOfYear y m d + 10 - isoWeekday y m d) / 7
  if w = 0 then (y - 1, isoWeeksInYear (y - 1))
  else if isoWeeksInYear y < w then (y + 1, 1)
  else (y, w)

/-- A parsed `datetime` value: civil fields plus an optional UTC offset in
minutes (`none` = a naive datetime, i.e. no offset given). -/
structure DateTime where
  year : Nat
  month : Nat
  day : Nat
  hour : Nat
  minute : Nat
  second : Nat
  offset : Option Int
  deriving Repr, DecidableEq

def digitVal (c : Char) : Option Nat :=
  if c.isDigit then some (c.toNat - 48) else none

def read2 : List Char → Option (Nat × List Char)
  | a :: b :: rest => do
    let x ← digitVal a
    let y ← digitVal b
    pure (10 * x + y, rest)
  | _ => none

def read4 : List Char → Option (Nat × List Char)
  | a :: b :: c :: d :: rest => do
    let x ← digitVal a
    let y ← digitVal b
    let z ← digitVal c
    let w ← digitVal d
    pure (1000 * x + 100 * y + 10 * z + w, rest)
  | _ => none

def expectChar (c : Char) : List Char → Option (List Char)
  | x :: rest => if x = c then some rest else none
  | [] => none

/-- Consume an optional fractional-seconds part `.d+` (value ignored). -/
def skipFraction : List Char → Option (List Char)
  | '.' :: rest =>
    let digits := rest.takeWhile (·.isDigit)
    if digits.isEmpty then none else some (rest.dropWhile (·.isDigit))
  | cs => some cs

/-- Parse a `±HH:MM` UTC-offset suffix, or nothing (naive datetime). -/
def parseOffset : List Char → Option (Option Int)
  | [] => some none
  | sign :: rest =>
    if sign = '+' ∨ sign = '-' then do
      let (oh, rest) ← read2 rest
      let rest ← expectChar ':' rest
      let (om, rest) ← read2 rest
      if rest.isEmpty ∧ oh ≤ 23 ∧ om ≤ 59 then
        let total : Int := oh * 60 + om
        some (some (if sign = '-' then -total else total))
      else none
    else none

/-- Parse the time-of-day part `HH:MM[:SS[.frac]][±HH:MM]`. -/
def parseTimePart (cs : List Char) : Option (Nat × Nat × Nat × Option Int) := do
  let (h, cs) ← read2 cs
  let cs ← expectChar ':' cs
  let (mi, cs) ← read2 cs
  let (s, cs) ←
    match cs with
    | ':' :: rest => do
      let (s, rest) ← read2 rest
      let rest ← skipFraction rest
      pure (s, rest)
    | _ => pure (0, cs)
  if h ≤ 23 ∧ mi ≤ 59 ∧ s ≤ 59 then do
    let off ← parseOffset cs
    pure (h, mi, s, off)
  else none

/-- Embedding of `datetime.fromisoformat` for the shapes the code feeds it:
`YYYY-MM-DD`, optionally followed by `T` or a space and
`HH:MM[:SS[.frac]][±HH:MM]`.  Returns `none` where Python raises
`ValueError`. -/
def fromisoformat (s : String) : Option DateTime := do
  let cs := s.toList
  let (y, cs) ← read4 cs
  let cs ← expectChar '-' cs
  let (mo, cs) ← read2 cs
  let cs ← expectChar '-' cs
  let (d, cs) ← read2 cs
  if 1 ≤ y ∧ 1 ≤ mo ∧ mo ≤ 12 ∧ 1 ≤ d ∧ d ≤ daysInMonth y mo then
    match cs with
    | [] => some ⟨y, mo, d, 0, 0, 0, none⟩
    | c :: rest =>
      if c = 'T' ∨ c = ' ' then do
        let (h, mi, sec, off) ← parseTimePart rest
        some ⟨y, mo, d, h, mi, sec, off⟩
      else none
  else none

/-- Seconds since the epoch of an aware datetime (offset applied). -/
def DateTime.epochSeconds (dt : DateTime) : Int :=
  daysFromCivil dt.year dt.month dt.day * 86400
    + dt.hour * 3600 + dt.minute * 60 + dt.second
    - 60 * dt.offset.getD 0

/-- `date_str.replace("Z", "+00:00")` from rag_answer.py / metrics.py:
every occurrence of the single character `Z` becomes `+00:00`. -/
def pyReplaceZ (s : String) : String :=
  String.mk (s.toList.flatMap fun c => if c = 'Z' then "+00:00".toList else [c])

/-- `question.lower()`: Python's `str.lower` (ASCII range, which is all the
keyword matching relies on). -/
def pyLower (s : String) : String := String.mk (s.toList.map Char.toLower)

/-- Decidable equality on `Except`, to let concrete runs of the embedded
functions be checked by `decide`. -/
instance {ε α : Type} [DecidableEq ε] [DecidableEq α] : DecidableEq (Except ε α) := fun x y =>
  match x, y with
  | .ok a, .ok b =>
    if h : a = b then .isTrue (by rw [h])
    else .isFalse (by intro he; cases he; exact h rfl)
  | .error e, .error f =>
    if h : e = f then .isTrue (by rw [h])
    else .isFalse (by intro he; cases he; exact h rfl)
  | .ok _, .error _ => .isFalse (by intro he; cases he)
  | .error _, .ok _ => .isFalse (by intro he; cases he)

/-! ## Ordered dictionaries (Python `dict` / `defaultdict(int)`)

Insertion-ordered association lists with string keys. -/

/-- `d[k] += 1` on a `defaultdict(int)`: increments in place, appending a new
key at the end on first occurrence (Python dicts preserve insertion order). -/
def bump (k : String) : List (String × Nat) → List (String × Nat)
  | [] => [(k, 1)]
  | (a, n) :: rest => if a = k then (a, n + 1) :: rest else (a, n) :: bump k rest

/-- Build the ordered counts dictionary of a list of keys by iterating and
incrementing, exactly as the `for` loops in metrics.py do. -/
def countsOf (ks : List String) : List (String × Nat) :=
  ks.foldl (fun acc k => bump k acc) []

/-- Code-point comparison of character lists: Python's string `<`
(lexicographic by Unicode code point). -/
def charListLt : List Char → List Char → Bool
  | _, [] => false
  | [], _ :: _ => true
  | a :: as, b :: bs => if a = b then charListLt as bs else decide (a.toNat < b.toNat)

/-- Python's string `<`, the comparison `sorted` applies to dict keys. -/
def strLt (a b : String) : Bool := charListLt a.toList b.toList

/-- Insert into a list sorted ascending by key (used for `sorted(d.items())`,
which compares string keys lexicographically). -/
def insertByKey (p : String × Nat) : List (String × Nat) → List (String × Nat)
  | [] => [p]
  | q :: qs => if strLt p.1 q.1 then p :: q :: qs else q :: insertByKey p qs

/-- `dict(sorted(d.items()))`: the items sorted by string key. -/
def sortByKey : List (String × Nat) → List (String × Nat)
  | [] => []
  | p :: ps => insertByKey p (sortByKey ps)

/-- Stable insert for descending-by-count order: an element goes before the
first entry whose count is `≤` its own, so equal counts keep their original
relative order (Python's `sorted` is stable). -/
def insertDesc (p : String × Nat) : List (String × Nat) → List (String × Nat)
  | [] => [p]
  | q :: qs => if q.2 ≤ p.2 then p :: q :: qs else q :: insertDesc p qs

/-- `sorted(pairs, key=count, reverse=True)`: stable descending sort. -/
def sortDescByCount : List (String × Nat) → List (String × Nat)
  | [] => []
  | p :: ps => insertDesc p (sortDescByCount ps)

/-- Look a key up in an ordered counts dictionary. -/
def lookupCount (k : String) : List (String × Nat) → Option Nat
  | [] => none
  | (a, n) :: rest => if a = k then some n else lookupCount k rest

/-- The sum of the counts of an ordered counts dictionary. -/
def sumCounts (l : List (String × Nat)) : Nat :=
  l.foldr (fun p acc => p.2 + acc) 0

/-- The distinct keys of a list in order of first occurrence (`seen` carries
the keys already emitted). -/
def newKeys (seen : List String) : List String → List String
  | [] => []
  | k :: ks => if k ∈ seen then newKeys seen ks else k :: newKeys (seen ++ [k]) ks

/-- The author-name / date keys of a list, each kept at its first occurrence:
the order in which Python dict keys are created while iterating the list. -/
def firstOccurrences (ks : List String) : List String := newKeys [] ks

/-! ## metrics.py -/

/-- `date_str.split("T")[0]`: everything before the first `'T'`. -/
def dropTimePart (s : String) : String := String.mk (s.toList.takeWhile (· ≠ 'T'))

/-- The date keys read by the `commits_per_day` loop, in commit order.
Reading `c["commit"]["author"]["date"]` raises (`KeyError` on a missing
field, `AttributeError` on `None`), which the embedding models as
`Except.error`. -/
def dayKeysOf : List Commit → Except String (List String)
  | [] => .ok []
  | c :: cs =>
    match c.date with
    | none => Except.error "KeyError: date"
    | some s => do
      let ks ← dayKeysOf cs
      .ok (dropTimePart s :: ks)

/-- `commits_per_day` (metrics.py): count per day key, `dict(sorted(...))`. -/
def commits_per_day (commits : List Commit) : Except String (List (String × Nat)) := do
  let keys ← dayKeysOf commits
  .ok (sortByKey (countsOf keys))

/-- The `f"{year}-W{week}"` key built by `commits_per_week`. -/
def weekKey (dt : DateTime) : String :=
  let yw := isocalendar dt.year dt.month dt.day
  let y := yw.1
  let w := yw.2
  s!"{y}-W{w}"

/-- The week key a commit contributes, when its date is present and parses. -/
def weekKeyOf (c : Commit) : Option String :=
  c.date.bind fun s => (fromisoformat (pyReplaceZ s)).map weekKey

/-- The week keys read by the `commits_per_week` loop, in commit order:
parse each date (after replacing `Z`), raise `ValueError` where parsing
fails, and key by `f"{year}-W{week}"` from `isocalendar()`. -/
def weekKeysOf : List Commit → Except String (List String)
  | [] => .ok []
  | c :: cs =>
    match c.date with
    | none => Except.error "KeyError: date"
    | some s =>
      match fromisoformat (pyReplaceZ s) with
      | none => Except.error "ValueError: invalid isoformat"
      | some dt => do
        let ks ← weekKeysOf cs
        .ok (weekKey dt :: ks)

/-- `commits_per_week` (metrics.py): count per week key, `dict(sorted(...))`
— sorted by the *string* key. -/
def commits_per_week (commits : List Commit) : Except String (List (String × Nat)) := do
  let keys ← weekKeysOf commits
  .ok (sortByKey (countsOf keys))

/-- `c["commit"]["author"]["name"] or "Unknown"`: the Python `or` falls back
on a falsy name (JSON null, modelled by `none`, or the empty string). -/
def pyOrUnknown : Option String → String
  | none => "Unknown"
  | some s => if s = "" then "Unknown" else s

/-- The author display names of a commit list, with the `"Unknown"` fallback. -/
def authorNames (commits : List Commit) : List String :=
  commits.map fun c => pyOrUnknown c.authorName

/-- `top_contributors` (metrics.py): count per author name, stable sort
descending by count, take the first `limit`. -/
def top_contributors (commits : List Commit) (limit : Nat) : List (String × Nat) :=
  (sortDescByCount (countsOf (authorNames commits))).take limit

/-! ## rag_answer.py -/

/-- Whether `needle` occurs as a contiguous run inside a character list. -/
def listHasRun (needle : List Char) : List Char → Bool
  | [] => needle.isEmpty
  | c :: rest => needle.isPrefixOf (c :: rest) || listHasRun needle rest

/-- `needle in hay` for Python strings: substring containment. -/
def containsSub (hay needle : String) : Bool :=
  listHasRun needle.toList hay.toList

/-- `infer_time_window` (rag_answer.py): keyword cascade on the lowercased
question. -/
def infer_time_window (question : String) : Option Nat :=
  if containsSub (pyLower question) "today" then some 1
  else if containsSub (pyLower question) "yesterday" then some 2
  else if containsSub (pyLower question) "this week" || containsSub (pyLower question) "past week"
      || containsSub (pyLower question) "last week" then some 7
  else if containsSub (pyLower question) "recent" || containsSub (pyLower question) "recently" then some 7
  else if containsSub (pyLower question) "this month" || containsSub (pyLower question) "last month"
      || containsSub (pyLower question) "past month" then some 30
  else if containsSub (pyLower question) "this year" || containsSub (pyLower question) "last year"
      || containsSub (pyLower question) "past year" then some 365
  else if ["why", "how", "architecture", "tokenizer", "design", "model"].any
      (fun k => containsSub (pyLower question) k) then none
  else some 30

/-- The time-window inference rules exactly as the specification states them:
one precedence list, with the week keywords and `recent`/`recently` forming a
single rule mapping to 7. -/
def inferWindowSpec (question : String) : Option Nat :=
  if containsSub (pyLower question) "today" then some 1
  else if containsSub (pyLower question) "yesterday" then some 2
  else if containsSub (pyLower question) "this week" || containsSub (pyLower question) "past week"
      || containsSub (pyLower question) "last week" || containsSub (pyLower question) "recent"
      || containsSub (pyLower question) "recently" then some 7
  else if containsSub (pyLower question) "this month" || containsSub (pyLower question) "last month"
      || containsSub (pyLower question) "past month" then some 30
  else if containsSub (pyLower question) "this year" || containsSub (pyLower question) "last year"
      || containsSub (pyLower question) "past year" then some 365
  else if ["why", "how", "architecture", "tokenizer", "design", "model"].any
      (fun k => containsSub (pyLower question) k) then none
  else some 30

/-- The loop body of `_filter_commits_by_days`: skip commits with a falsy
date, raise `ValueError` on an unparseable date, raise `TypeError` when the
parsed datetime is naive (aware/naive comparison), else keep the commit iff
its timestamp is `≥ cutoff`. -/
def filterByDaysAux (cutoff : Int) : List Commit → Except String (List Commit)
  | [] => .ok []
  | c :: cs =>
    match c.date with
    | none => filterByDaysAux cutoff cs
    | some s =>
      if s = "" then filterByDaysAux cutoff cs
      else
        match fromisoformat (pyReplaceZ s) with
        | none => Except.error "ValueError: invalid isoformat"
        | some dt =>
          match dt.offset with
          | none => Except.error "TypeError: naive and aware datetimes"
          | some _ => do
            let rest ← filterByDaysAux cutoff cs
            .ok (if cutoff ≤ dt.epochSeconds then c :: rest else rest)

/-- `_filter_commits_by_days` (rag_answer.py): no filtering when
`days = None`, else keep commits at most `days` before `now` (epoch
seconds). -/
def _filter_commits_by_days (commits : List Commit) (days : Option Nat) (now : Int) :
    Except String (List Commit) :=
  match days with
  | none => .ok commits
  | some d => filterByDaysAux (now - 86400 * (d : Int)) commits

/-- The metrics dictionary built by `_build_metrics_block`. -/
structure MetricsBlock where
  total_commits_recent : Nat
  per_day : List (String × Nat)
  per_week : List (String × Nat)
  top : List (String × Nat)
  deriving Repr, DecidableEq

/-- `_build_metrics_block` (rag_answer.py), with the fetched commit list
passed in place of the `get_commits` call. -/
def _build_metrics_block (commits : List Commit) (days : Option Nat) (now : Int) :
    Except String MetricsBlock := do
  let recent ← _filter_commits_by_days commits days now
  let pd ← commits_per_day recent
  let pw ← commits_per_week recent
  .ok ⟨recent.length, pd, pw, top_contributors recent 5⟩

/-- The result dictionary of `query_similar`, keeping only the field the
pipeline reads (`none` models a missing `"documents"` key). -/
structure QueryResult where
  documents : Option (List (List String))
  deriving Repr

/-- `_build_context_snippets`: `docs = res.get("documents") or [[]]` then
`docs[0]`.  A missing or falsy (empty) documents field yields `[[]]`. -/
def _build_context_snippets (res : QueryResult) : List String :=
  let docs :=
    match res.documents with
    | none => [[]]
    | some [] => [[]]
    | some l => l
  docs.headD []

/-- The structured result returned by `answer_question`. -/
structure AnswerResult where
  repo : String
  question : String
  time_window_used : Option Nat
  answer : String
  metrics : MetricsBlock
  used_context : List String
  deriving Repr

/-- `answer_question` (rag_answer.py), with its effects injected: `commits`
is what `get_commits` returns, `queryRes` what `query_similar` returns and
`llmAnswer` what `generate_answer_from_llm` would return.  The second
component of the result counts the calls made to the generation service. -/
def answer_question (commits : List Commit) (queryRes : QueryResult) (llmAnswer : String)
    (repo_full_name question : String) (k : Nat) (now : Int) :
    Except String (AnswerResult × Nat) := do
  let time_window_days := infer_time_window question
  let metrics ← _build_metrics_block commits time_window_days now
  if metrics.total_commits_recent = 0 then
    .ok (⟨repo_full_name, question, time_window_days,
          "No activity in this period.", metrics, []⟩, 0)
  else
    let context_snippets := _build_context_snippets queryRes
    .ok (⟨repo_full_name, question, time_window_days, llmAnswer, metrics,
          context_snippets.take k⟩, 1)

/-! ## cache.py

The filesystem is modelled as an explicit state: the set of directories that
exist, and a map from file paths to contents.  File contents are modelled at
the JSON-value level: `some v` is a file whose text `json.load` parses to
`v`, and `none` is a file whose text cannot be read or parsed (the case the
bare `except:` in `load_cache` swallows). -/

structure FS where
  dirs : List String
  files : List (String × Option Json)
  deriving Repr

def CACHE_DIR : String := "cache"

def pathJoin (a b : String) : String := a ++ "/" ++ b

/-- `ensure_dir`: `os.makedirs(path)` iff the directory does not exist. -/
def ensure_dir (path : String) (fs : FS) : FS :=
  if path ∈ fs.dirs then fs else { fs with dirs := fs.dirs ++ [path] }

/-- `cache_path(key, folder)`: ensures the folder exists (on every call,
loads included) and returns `cache/<folder>/<key>.json`. -/
def cache_path (key folder : String) (fs : FS) : String × FS :=
  (pathJoin (pathJoin CACHE_DIR folder) (key ++ ".json"),
   ensure_dir (pathJoin CACHE_DIR folder) fs)

def lookupFile (path : String) : List (String × Option Json) → Option (Option Json)
  | [] => none
  | (p, c) :: rest => if p = path then some c else lookupFile path rest

def setFile (path : String) (content : Option Json) :
    List (String × Option Json) → List (String × Option Json)
  | [] => [(path, content)]
  | (p, c) :: rest =>
    if p = path then (p, content) :: rest else (p, c) :: setFile path content rest

/-- `load_cache`: `None` when the file does not exist, `None` when reading or
parsing fails (bare `except:`), the parsed value otherwise. -/
def load_cache (key folder : String) (fs : FS) : Option Json × FS :=
  let pf := cache_path key folder fs
  match lookupFile pf.1 pf.2.files with
  | none => (none, pf.2)
  | some none => (none, pf.2)
  | some (some v) => (some v, pf.2)

/-- `save_cache`: write `json.dump(data)` to the cache file (overwriting). -/
def save_cache (key folder : String) (data : Json) (fs : FS) : FS :=
  let pf := cache_path key folder fs
  { pf.2 with files := setFile pf.1 (some data) pf.2.files }

/-! ## vectorstore.py -/

/-- What `upsert_documents` did: nothing (empty input), or an upsert of the
given `(id, text, metadata)` rows into the collection. -/
inductive UpsertOutcome (M : Type) where
  | noop
  | stored (entries : List (String × String × M))
  deriving Repr

/-- The parallel `(id, text, metadata)` rows handed to `collection.upsert`. -/
def zip3 {α β γ : Type} : List α → List β → List γ → List (α × β × γ)
  | a :: as, b :: bs, c :: cs => (a, b, c) :: zip3 as bs cs
  | _, _, _ => []

/-- `upsert_documents` (vectorstore.py): return early on empty `ids`, raise
`ValueError` on a length mismatch, otherwise embed all texts in one batch
call (the second component counts `embed_texts` calls) and upsert. -/
def upsert_documents {M : Type} (ids texts : List String) (metadatas : List M) :
    Except String (UpsertOutcome M × Nat) :=
  if ids.isEmpty then .ok (.noop, 0)
  else if ids.length = texts.length ∧ texts.length = metadatas.length then
    .ok (.stored (zip3 ids texts metadatas), 1)
  else .error "ids, texts, metadatas must have same length"

/-- Overwrite-or-append one row of the vector collection, keyed by id. -/
def setEntry {M : Type} (e : String × String × M) :
    List (String × String × M) → List (String × String × M)
  | [] => [e]
  | x :: rest => if x.1 = e.1 then e :: rest else x :: setEntry e rest

/-- `collection.upsert`: each row overwrites the entry with the same id. -/
def collection_upsert {M : Type} (entries store : List (String × String × M)) :
    List (String × String × M) :=
  entries.foldl (fun st e => setEntry e st) store

def lookupEntry {M : Type} (id : String) :
    List (String × String × M) → Option (String × M)
  | [] => none
  | x :: rest => if x.1 = id then some x.2 else lookupEntry id rest

/-! ## services/github_service.py -/

/-- One HTTP page response: `ok`/`status`/`body` mirror the `requests`
response, `data` is the parsed JSON list (meaningful when `ok`). -/
structure PageResp where
  ok : Bool
  status : Nat
  body : String
  data : List Json
  deriving Repr

/-- The message of the exception raised on a non-success response. -/
def upErrMsg (status : Nat) (body : String) : String :=
  s!"GitHub API Error {status}: {body}"

/-- The `while True` pagination loop shared by `get_commits` and
`get_pull_requests`: request page after page, abort on a non-success
response, stop at the first empty page and return everything concatenated.
`fuel` bounds the number of iterations (`.ok none` = fuel exhausted, i.e.
the Python loop would still be running). -/
def fetch_pages (pages : Nat → PageResp) :
    Nat → Nat → List Json → Except String (Option (List Json))
  | 0, _, _ => .ok none
  | fuel + 1, page, acc =>
    let r := pages page
    if r.ok = false then .error (upErrMsg r.status r.body)
    else if r.data.isEmpty then .ok (some acc)
    else fetch_pages pages fuel (page + 1) (acc ++ r.data)

/-- The concatenation of the `data` of `count` successive pages starting at
page number `start`: what "page until an empty page, concatenating" yields. -/
def pagesData (pages : Nat → PageResp) (start count : Nat) : List Json :=
  ((List.range' start count).map fun p => (pages p).data).flatten

/-- Python truthiness of the value `load_cache` returned (`if cached:`). -/
def cachedTruthy : Option Json → Bool
  | none => false
  | some v => v.truthy

/-- `get_commits` (github_service.py): cache check first (a truthy cached
value is returned as-is), else paginate and save.  `pages` models the
upstream: the response to the request for each page number. -/
def get_commits (pages : Nat → PageResp) (owner repo : String) (fuel : Nat) (fs : FS) :
    Except String (Option (Json × FS)) :=
  let lc := load_cache (owner ++ "_" ++ repo ++ "_commits") "commits" fs
  if cachedTruthy lc.1 then .ok (some (lc.1.getD Json.null, lc.2))
  else
    match fetch_pages pages fuel 1 [] with
    | .error e => .error e
    | .ok none => .ok none
    | .ok (some commits) =>
      .ok (some (Json.arr commits,
        save_cache (owner ++ "_" ++ repo ++ "_commits") "commits" (Json.arr commits) lc.2))

/-- `get_pull_requests` (github_service.py): same structure as
`get_commits` with the `prs` cache key and folder (the `state` query
parameter only affects the upstream request, which `pages` models). -/
def get_pull_requests (pages : Nat → PageResp) (owner repo : String) (fuel : Nat) (fs : FS) :
    Except String (Option (Json × FS)) :=
  let lc := load_cache (owner ++ "_" ++ repo ++ "_prs") "prs" fs
  if cachedTruthy lc.1 then .ok (some (lc.1.getD Json.null, lc.2))
  else
    match fetch_pages pages fuel 1 [] with
    | .error e => .error e
    | .ok none => .ok none
    | .ok (some prs) =>
      .ok (some (Json.arr prs,
        save_cache (owner ++ "_" ++ repo ++ "_prs") "prs" (Json.arr prs) lc.2))

/-- `get_contributors` (github_service.py): cache check first, then a
single request — no pagination loop — then save.  `resp` models the one
`requests.get` response. -/
def get_contributors (resp : PageResp) (owner repo : String) (fs : FS) :
    Except String (Json × FS) :=
  let lc := load_cache (owner ++ "_" ++ repo ++ "_contributors") "contributors" fs
  if cachedTruthy lc.1 then .ok (lc.1.getD Json.null, lc.2)
  else if resp.ok = false then .error (upErrMsg resp.status resp.body)
  else
    .ok (Json.arr resp.data,
      save_cache (owner ++ "_" ++ repo ++ "_contributors") "contributors"
        (Json.arr resp.data) lc.2)

/-- A concrete upstream with two non-empty pages then an empty page, used to
exercise the pagination behaviour on concrete runs. -/
def c7pages : Nat → PageResp := fun n =>
  if n = 1 then ⟨true, 200, "", [Json.str "c1"]⟩
  else if n = 2 then ⟨true, 200, "", [Json.str "c2"]⟩
  else ⟨true, 200, "", []⟩

/-! ## Lemmas: ordered dictionaries -/

theorem bump_keys (k : String) (acc : List (String × Nat)) :
    (bump k acc).map Prod.fst =
      if k ∈ acc.map Prod.fst then acc.map Prod.fst else acc.map Prod.fst ++ [k] := by
  induction acc with
  | nil => simp [bump]
  | cons p rest ih =>
    obtain ⟨a, n⟩ := p
    by_cases h : a = k
    · subst h
      simp [bump]
    · simp only [bump, if_neg h, List.map_cons, ih, List.mem_cons]
      by_cases hk : k ∈ rest.map Prod.fst
      · simp [hk, Ne.symm h]
      · simp [hk, Ne.symm h]

theorem lookupCount_bump_self (k : String) (acc : List (String × Nat)) :
    lookupCount k (bump k acc) = some ((lookupCount k acc).getD 0 + 1) := by
  induction acc with
  | nil => simp [bump, lookupCount]
  | cons p rest ih =>
    obtain ⟨a, n⟩ := p
    by_cases h : a = k
    · subst h
      simp [bump, lookupCount]
    · simp [bump, lookupCount, h, ih]

theorem lookupCount_bump_ne {k' k : String} (h : k' ≠ k) (acc : List (String × Nat)) :
    lookupCount k (bump k' acc) = lookupCount k acc := by
  induction acc with
  | nil => simp [bump, lookupCount, h]
  | cons p rest ih =>
    obtain ⟨a, n⟩ := p
    by_cases ha : a = k'
    · subst ha
      simp [bump, lookupCount, h]
    · by_cases hk : a = k
      · subst hk
        simp [bump, lookupCount, ha]
      · simp [bump, lookupCount, ha, hk, ih]

theorem countsAux_lookup (ks : List String) :
    ∀ (acc : List (String × Nat)) (k : String),
      lookupCount k (ks.foldl (fun a k' => bump k' a) acc) =
        if (lookupCount k acc).isSome ∨ k ∈ ks
        then some ((lookupCount k acc).getD 0 + ks.count k) else none := by
  induction ks with
  | nil =>
    intro acc k
    by_cases h : (lookupCount k acc).isSome
    · obtain ⟨v, hv⟩ := Option.isSome_iff_exists.mp h
      simp [hv]
    · simp [h, Option.not_isSome_iff_eq_none.mp h]
  | cons k' ks ih =>
    intro acc k
    simp only [List.foldl_cons]
    rw [ih (bump k' acc) k]
    by_cases h : k' = k
    · subst h
      rw [lookupCount_bump_self]
      simp [List.count_cons]
      omega
    · rw [lookupCount_bump_ne h]
      simp [List.count_cons, h, List.mem_cons, Ne.symm h]

theorem lookupCount_countsOf (ks : List String) (k : String) :
    lookupCount k (countsOf ks) = if k ∈ ks then some (ks.count k) else none := by
  have h := countsAux_lookup ks [] k
  simpa [countsOf, lookupCount] using h

theorem countsAux_keys (ks : List String) :
    ∀ acc : List (String × Nat),
      (ks.foldl (fun a k' => bump k' a) acc).map Prod.fst =
        acc.map Prod.fst ++ newKeys (acc.map Prod.fst) ks := by
  induction ks with
  | nil => simp [newKeys]
  | cons k ks ih =>
    intro acc
    simp only [List.foldl_cons]
    rw [ih (bump k acc), bump_keys]
    by_cases h : k ∈ acc.map Prod.fst
    · simp [h, newKeys]
    · simp [h, newKeys]

theorem countsOf_keys (ks : List String) :
    (countsOf ks).map Prod.fst = firstOccurrences ks := by
  have h := countsAux_keys ks []
  simpa [countsOf, firstOccurrences] using h

theorem newKeys_nodup_append :
    ∀ (ks seen : List String), seen.Nodup → (seen ++ newKeys seen ks).Nodup := by
  intro ks
  induction ks with
  | nil =>
    intro seen h
    simpa [newKeys]
  | cons k ks ih =>
    intro seen h
    by_cases hk : k ∈ seen
    · simpa [newKeys, hk] using ih seen h
    · have h2 : (seen ++ [k]).Nodup := by
        simp [List.nodup_append, h, hk]
      have h3 := ih (seen ++ [k]) h2
      simpa [newKeys, hk, List.append_assoc] using h3

theorem firstOccurrences_nodup (ks : List String) : (firstOccurrences ks).Nodup := by
  simpa [firstOccurrences] using newKeys_nodup_append ks [] List.nodup_nil

theorem countsOf_keys_nodup (ks : List String) :
    ((countsOf ks).map Prod.fst).Nodup := by
  rw [countsOf_keys]
  exact firstOccurrences_nodup ks

theorem mem_iff_lookupCount :
    ∀ {l : List (String × Nat)}, (l.map Prod.fst).Nodup →
      ∀ (k : String) (n : Nat), ((k, n) ∈ l ↔ lookupCount k l = some n) := by
  intro l
  induction l with
  | nil => simp [lookupCount]
  | cons p rest ih =>
    intro hnd k n
    obtain ⟨a, m⟩ := p
    simp only [List.map_cons, List.nodup_cons] at hnd
    have hstep : ∀ k : String,
        lookupCount k ((a, m) :: rest) =
          if a = k then some m else lookupCount k rest := fun _ => rfl
    by_cases h : a = k
    · subst h
      rw [hstep a, if_pos rfl]
      simp only [List.mem_cons, Option.some.injEq, Prod.mk.injEq]
      constructor
      · rintro (⟨_, rfl⟩ | hmem)
        · rfl
        · exact absurd (List.mem_map.mpr ⟨(a, n), hmem, rfl⟩) hnd.1
      · rintro rfl
        exact Or.inl ⟨trivial, rfl⟩
    · rw [hstep k, if_neg h]
      simp only [List.mem_cons]
      rw [← ih hnd.2 k n]
      constructor
      · rintro (he | hmem)
        · simp only [Prod.mk.injEq] at he
          exact absurd he.1.symm h
        · exact hmem
      · exact fun hmem => Or.inr hmem

/-! ## Lemmas: the two sorts -/

theorem char_eq_of_toNat_eq {a b : Char} (h : a.toNat = b.toNat) : a = b :=
  Char.ext (UInt32.ext h)

theorem charListLt_trans :
    ∀ as bs cs : List Char, charListLt as bs = true → charListLt bs cs = true →
      charListLt as cs = true := by
  intro as
  induction as with
  | nil =>
    intro bs cs h1 h2
    cases cs with
    | nil =>
      cases bs <;> simp [charListLt] at h2
    | cons c cs => simp [charListLt]
  | cons a as ih =>
    intro bs cs h1 h2
    cases bs with
    | nil => simp [charListLt] at h1
    | cons b bs =>
      cases cs with
      | nil => simp [charListLt] at h2
      | cons c cs =>
        simp only [charListLt] at h1 h2 ⊢
        by_cases hab : a = b
        · subst hab
          rw [if_pos rfl] at h1
          by_cases hac : a = c
          · subst hac
            rw [if_pos rfl] at h2 ⊢
            exact ih bs cs h1 h2
          · rw [if_neg hac] at h2 ⊢
            exact h2
        · rw [if_neg hab] at h1
          have h1' : a.toNat < b.toNat := of_decide_eq_true h1
          by_cases hbc : b = c
          · subst hbc
            rw [if_neg hab]
            exact decide_eq_true h1'
          · rw [if_neg hbc] at h2
            have h2' : b.toNat < c.toNat := of_decide_eq_true h2
            have hac : a ≠ c := by
              intro he
              subst he
              omega
            rw [if_neg hac]
            exact decide_eq_true (by omega)

theorem charListLt_connex :
    ∀ as bs : List Char, charListLt as bs = false → charListLt bs as = false →
      as = bs := by
  intro as
  induction as with
  | nil =>
    intro bs h1 h2
    cases bs with
    | nil => rfl
    | cons b bs => simp [charListLt] at h1
  | cons a as ih =>
    intro bs h1 h2
    cases bs with
    | nil => simp [charListLt] at h2
    | cons b bs =>
      simp only [charListLt] at h1 h2
      by_cases hab : a = b
      · subst hab
        rw [if_pos rfl] at h1 h2
        rw [ih bs h1 h2]
      · rw [if_neg hab] at h1
        rw [if_neg (fun he => hab he.symm)] at h2
        have h1' : ¬ a.toNat < b.toNat := of_decide_eq_false h1
        have h2' : ¬ b.toNat < a.toNat := of_decide_eq_false h2
        exact absurd (char_eq_of_toNat_eq (by omega)) hab

theorem strLt_trans {a b c : String} (h1 : strLt a b = true) (h2 : strLt b c = true) :
    strLt a c = true :=
  charListLt_trans _ _ _ h1 h2

theorem strLt_connex {a b : String} (h1 : strLt a b = false) (h2 : strLt b a = false) :
    a = b := by
  have h := charListLt_connex _ _ h1 h2
  cases a
  cases b
  exact congrArg String.mk h

theorem mem_insertByKey (p x : String × Nat) :
    ∀ l, x ∈ insertByKey p l ↔ x = p ∨ x ∈ l := by
  intro l
  induction l with
  | nil => simp [insertByKey]
  | cons q qs ih =>
    have hstep : insertByKey p (q :: qs) =
        if strLt p.1 q.1 then p :: q :: qs else q :: insertByKey p qs := rfl
    rw [hstep]
    by_cases h : strLt p.1 q.1 = true
    · rw [if_pos h]
      simp [List.mem_cons]
    · rw [if_neg h]
      simp only [List.mem_cons, ih]
      tauto

theorem mem_sortByKey (x : String × Nat) : ∀ l, x ∈ sortByKey l ↔ x ∈ l := by
  intro l
  induction l with
  | nil => simp [sortByKey]
  | cons p ps ih =>
    have hstep : sortByKey (p :: ps) = insertByKey p (sortByKey ps) := rfl
    rw [hstep, mem_insertByKey]
    simp [List.mem_cons, ih]

theorem insertByKey_pairwise (p : String × Nat) :
    ∀ l, l.Pairwise (fun a b => strLt a.1 b.1 = true) → p.1 ∉ l.map Prod.fst →
      (insertByKey p l).Pairwise (fun a b => strLt a.1 b.1 = true) := by
  intro l
  induction l with
  | nil =>
    intro _ _
    simp [insertByKey]
  | cons q qs ih =>
    intro hl hp
    have hstep : insertByKey p (q :: qs) =
        if strLt p.1 q.1 then p :: q :: qs else q :: insertByKey p qs := rfl
    rw [hstep]
    simp only [List.map_cons, List.mem_cons, not_or] at hp
    rw [List.pairwise_cons] at hl
    by_cases h : strLt p.1 q.1 = true
    · rw [if_pos h]
      refine List.pairwise_cons.mpr ⟨?_, List.pairwise_cons.mpr ⟨hl.1, hl.2⟩⟩
      intro b hb
      rcases List.mem_cons.mp hb with rfl | hb
      · exact h
      · exact strLt_trans h (hl.1 b hb)
    · rw [if_neg h]
      have hq : strLt q.1 p.1 = true := by
        cases hq : strLt q.1 p.1 with
        | true => rfl
        | false =>
          exact absurd (strLt_connex (Bool.not_eq_true _ ▸ h) hq) hp.1
      refine List.pairwise_cons.mpr ⟨?_, ih hl.2 hp.2⟩
      intro b hb
      rcases (mem_insertByKey p b qs).mp hb with rfl | hb
      · exact hq
      · exact hl.1 b hb

theorem sortByKey_pairwise :
    ∀ l : List (String × Nat), (l.map Prod.fst).Nodup →
      (sortByKey l).Pairwise (fun a b => strLt a.1 b.1 = true) := by
  intro l
  induction l with
  | nil =>
    intro _
    simp [sortByKey]
  | cons p ps ih =>
    intro h
    simp only [List.map_cons, List.nodup_cons] at h
    refine insertByKey_pairwise p (sortByKey ps) (ih h.2) ?_
    intro hmem
    obtain ⟨x, hx, he⟩ := List.mem_map.mp hmem
    rw [mem_sortByKey] at hx
    exact h.1 (List.mem_map.mpr ⟨x, hx, he⟩)

theorem mem_insertDesc (p x : String × Nat) :
    ∀ l, x ∈ insertDesc p l ↔ x = p ∨ x ∈ l := by
  intro l
  induction l with
  | nil => simp [insertDesc]
  | cons q qs ih =>
    have hstep : insertDesc p (q :: qs) =
        if q.2 ≤ p.2 then p :: q :: qs else q :: insertDesc p qs := rfl
    rw [hstep]
    by_cases h : q.2 ≤ p.2
    · rw [if_pos h]
      simp [List.mem_cons]
    · rw [if_neg h]
      simp only [List.mem_cons, ih]
      tauto

theorem mem_sortDescByCount (x : String × Nat) :
    ∀ l, x ∈ sortDescByCount l ↔ x ∈ l := by
  intro l
  induction l with
  | nil => simp [sortDescByCount]
  | cons p ps ih =>
    have hstep : sortDescByCount (p :: ps) = insertDesc p (sortDescByCount ps) := rfl
    rw [hstep, mem_insertDesc]
    simp [List.mem_cons, ih]

theorem insertDesc_pairwise (p : String × Nat) :
    ∀ l, l.Pairwise (fun a b => b.2 ≤ a.2) →
      (insertDesc p l).Pairwise (fun a b => b.2 ≤ a.2) := by
  intro l
  induction l with
  | nil =>
    intro _
    simp [insertDesc]
  | cons q qs ih =>
    intro hl
    have hstep : insertDesc p (q :: qs) =
        if q.2 ≤ p.2 then p :: q :: qs else q :: insertDesc p qs := rfl
    rw [hstep]
    rw [List.pairwise_cons] at hl
    by_cases h : q.2 ≤ p.2
    · rw [if_pos h]
      refine List.pairwise_cons.mpr ⟨?_, List.pairwise_cons.mpr ⟨hl.1, hl.2⟩⟩
      intro b hb
      rcases List.mem_cons.mp hb with rfl | hb
      · exact h
      · exact le_trans (hl.1 b hb) h
    · rw [if_neg h]
      refine List.pairwise_cons.mpr ⟨?_, ih hl.2⟩
      intro b hb
      rcases (mem_insertDesc p b qs).mp hb with rfl | hb
      · exact le_of_lt (not_le.mp h)
      · exact hl.1 b hb

theorem sortDescByCount_pairwise :
    ∀ l : List (String × Nat), (sortDescByCount l).Pairwise (fun a b => b.2 ≤ a.2) := by
  intro l
  induction l with
  | nil => simp [sortDescByCount]
  | cons p ps ih => exact insertDesc_pairwise p (sortDescByCount ps) ih

theorem filter_insertDesc (p : String × Nat) (n : Nat) :
    ∀ l, (insertDesc p l).filter (fun q => q.2 == n) =
      if p.2 = n then p :: l.filter (fun q => q.2 == n)
      else l.filter (fun q => q.2 == n) := by
  intro l
  induction l with
  | nil =>
    by_cases h : p.2 = n <;> simp [insertDesc, List.filter_cons, beq_iff_eq, h]
  | cons q qs ih =>
    have hstep : insertDesc p (q :: qs) =
        if q.2 ≤ p.2 then p :: q :: qs else q :: insertDesc p qs := rfl
    rw [hstep]
    by_cases h : q.2 ≤ p.2
    · rw [if_pos h]
      by_cases hp : p.2 = n <;> simp [List.filter_cons, beq_iff_eq, hp]
    · rw [if_neg h]
      have hlt : p.2 < q.2 := not_le.mp h
      by_cases hp : p.2 = n
      · have hq : ¬ (q.2 = n) := by omega
        simp [List.filter_cons, beq_iff_eq, hp, hq, ih]
      · by_cases hq : q.2 = n <;> simp [List.filter_cons, beq_iff_eq, hp, hq, ih]

theorem filter_sortDescByCount (n : Nat) :
    ∀ l : List (String × Nat),
      (sortDescByCount l).filter (fun q => q.2 == n) = l.filter (fun q => q.2 == n) := by
  intro l
  induction l with
  | nil => simp [sortDescByCount]
  | cons p ps ih =>
    have hstep : sortDescByCount (p :: ps) = insertDesc p (sortDescByCount ps) := rfl
    rw [hstep, filter_insertDesc]
    by_cases hp : p.2 = n <;> simp [List.filter_cons, beq_iff_eq, hp, ih]

/-! ## Lemmas: count sums -/

theorem sumCounts_bump (k : String) (acc : List (String × Nat)) :
    sumCounts (bump k acc) = sumCounts acc + 1 := by
  induction acc with
  | nil => simp [bump, sumCounts]
  | cons p rest ih =>
    obtain ⟨a, m⟩ := p
    by_cases h : a = k
    · subst h
      simp [bump, sumCounts]
      omega
    · simp [bump, sumCounts, h] at ih ⊢
      omega

theorem sumCounts_countsAux (ks : List String) :
    ∀ acc, sumCounts (ks.foldl (fun a k' => bump k' a) acc) = sumCounts acc + ks.length := by
  induction ks with
  | nil => simp
  | cons k ks ih =>
    intro acc
    simp only [List.foldl_cons, List.length_cons]
    rw [ih (bump k acc), sumCounts_bump]
    omega

theorem sumCounts_countsOf (ks : List String) : sumCounts (countsOf ks) = ks.length := by
  have h := sumCounts_countsAux ks []
  simpa [countsOf, sumCounts] using h

theorem sumCounts_cons (p : String × Nat) (l : List (String × Nat)) :
    sumCounts (p :: l) = p.2 + sumCounts l := rfl

theorem sumCounts_insertByKey (p : String × Nat) :
    ∀ l, sumCounts (insertByKey p l) = p.2 + sumCounts l := by
  intro l
  induction l with
  | nil => simp [insertByKey, sumCounts]
  | cons q qs ih =>
    have hstep : insertByKey p (q :: qs) =
        if strLt p.1 q.1 then p :: q :: qs else q :: insertByKey p qs := rfl
    rw [hstep]
    by_cases h : strLt p.1 q.1 = true
    · rw [if_pos h]
      simp [sumCounts_cons]
    · rw [if_neg h]
      rw [sumCounts_cons, sumCounts_cons, ih]
      omega

theorem sumCounts_sortByKey :
    ∀ l : List (String × Nat), sumCounts (sortByKey l) = sumCounts l := by
  intro l
  induction l with
  | nil => rfl
  | cons p ps ih =>
    have hstep : sortByKey (p :: ps) = insertByKey p (sortByKey ps) := rfl
    rw [hstep, sumCounts_insertByKey, ih, sumCounts_cons]

/-! ## Lemmas: error propagation and the metrics key loops -/

theorem ebind_ok {α β : Type} (a : α) (f : α → Except String β) :
    (Except.ok a >>= f) = f a := rfl

theorem ebind_err {α β : Type} (e : String) (f : α → Except String β) :
    ((Except.error e : Except String α) >>= f) = Except.error e := rfl

theorem weekKeysOf_count :
    ∀ (commits : List Commit) (ks : List String), weekKeysOf commits = .ok ks →
      ∀ k, ks.count k = commits.countP (fun c => weekKeyOf c == some k) := by
  intro commits
  induction commits with
  | nil =>
    intro ks h k
    cases h
    simp
  | cons c cs ih =>
    intro ks h k
    simp only [weekKeysOf] at h
    cases hd : c.date with
    | none =>
      rw [hd] at h
      cases h
    | some s =>
      rw [hd] at h
      dsimp only at h
      cases hp : fromisoformat (pyReplaceZ s) with
      | none =>
        rw [hp] at h
        cases h
      | some dt =>
        rw [hp] at h
        dsimp only at h
        cases hcs : weekKeysOf cs with
        | error e =>
          rw [hcs, ebind_err] at h
          cases h
        | ok ks' =>
          rw [hcs, ebind_ok] at h
          cases h
          have hc : weekKeyOf c = some (weekKey dt) := by
            simp [weekKeyOf, hd, hp]
          rw [List.count_cons, List.countP_cons, ih ks' hcs k, hc]
          by_cases hk : weekKey dt = k
          · simp [hk]
          · simp [hk, beq_iff_eq]

theorem weekKeysOf_isOk :
    ∀ commits : List Commit, (∀ c ∈ commits, (weekKeyOf c).isSome) →
      ∃ ks, weekKeysOf commits = .ok ks := by
  intro commits
  induction commits with
  | nil =>
    intro _
    exact ⟨[], rfl⟩
  | cons c cs ih =>
    intro h
    have hc := h c (List.mem_cons_self c cs)
    obtain ⟨ks, hks⟩ := ih (fun c' hc' => h c' (List.mem_cons_of_mem c hc'))
    cases hd : c.date with
    | none => simp [weekKeyOf, hd] at hc
    | some s =>
      cases hp : fromisoformat (pyReplaceZ s) with
      | none => simp [weekKeyOf, hd, hp] at hc
      | some dt =>
        refine ⟨weekKey dt :: ks, ?_⟩
        simp only [weekKeysOf]
        rw [hd]
        dsimp only
        rw [hp]
        dsimp only
        rw [hks, ebind_ok]

theorem dayKeysOf_isOk :
    ∀ commits : List Commit, (∀ c ∈ commits, c.date ≠ none) →
      ∃ ks, dayKeysOf commits = .ok ks ∧ ks.length = commits.length := by
  intro commits
  induction commits with
  | nil =>
    intro _
    exact ⟨[], rfl, rfl⟩
  | cons c cs ih =>
    intro h
    have hc := h c (List.mem_cons_self c cs)
    obtain ⟨ks, hks, hlen⟩ := ih (fun c' hc' => h c' (List.mem_cons_of_mem c hc'))
    cases hd : c.date with
    | none => exact absurd hd hc
    | some s =>
      refine ⟨dropTimePart s :: ks, ?_, by simp [hlen]⟩
      simp only [dayKeysOf]
      rw [hd]
      dsimp only
      rw [hks, ebind_ok]

/-! ## Claims -/

/-- C3: `infer_time_window` lowercases the question and returns the value of
the first matching rule in the specification's exact precedence order
(today → 1; yesterday → 2; week/recent keywords → 7; month keywords → 30;
year keywords → 365; conceptual keywords → none; default 30), and the
specification's concrete examples evaluate as stated. -/
theorem C3_infer_time_window_matches_spec :
    (∀ q : String, infer_time_window q = inferWindowSpec q) ∧
    infer_time_window "what changed today?" = some 1 ∧
    infer_time_window "explain the tokenizer design" = none ∧
    infer_time_window "summarize last month" = some 30 ∧
    infer_time_window "hello" = some 30 := by
  refine ⟨fun q => ?_, by rfl, by rfl, by rfl, by rfl⟩
  unfold infer_time_window inferWindowSpec
  generalize containsSub (pyLower q) "this week" = w1
  generalize containsSub (pyLower q) "past week" = w2
  generalize containsSub (pyLower q) "last week" = w3
  generalize containsSub (pyLower q) "recent" = r1
  generalize containsSub (pyLower q) "recently" = r2
  cases w1 <;> cases w2 <;> cases w3 <;> cases r1 <;> cases r2 <;> simp

/-- C4: `top_contributors` returns at most `limit` entries, sorted descending
by commit count; each returned count is the number of commits whose author
display name (with the `"Unknown"` fallback) equals the entry's name; and
entries with equal counts appear in the order their author names first occur
in the input list (formalised: for each count, the names carrying that count
form a subsequence of the input's names in first-occurrence order). -/
theorem C4_top_contributors_spec (commits : List Commit) (limit : Nat) :
    (top_contributors commits limit).length ≤ limit ∧
    (top_contributors commits limit).Pairwise (fun a b => b.2 ≤ a.2) ∧
    (∀ p ∈ top_contributors commits limit,
       p.2 = (authorNames commits).count p.1 ∧ p.1 ∈ authorNames commits) ∧
    (∀ n : Nat,
       List.Sublist
         (((top_contributors commits limit).filter (fun p => p.2 == n)).map Prod.fst)
         (firstOccurrences (authorNames commits))) := by
  refine ⟨List.length_take_le _ _, ?_, ?_, ?_⟩
  · exact List.Pairwise.sublist (List.take_sublist _ _) (sortDescByCount_pairwise _)
  · intro p hp
    have hp1 : p ∈ sortDescByCount (countsOf (authorNames commits)) :=
      List.Sublist.mem hp (List.take_sublist _ _)
    have hp2 : p ∈ countsOf (authorNames commits) :=
      (mem_sortDescByCount p _).mp hp1
    have hp3 : (p.1, p.2) ∈ countsOf (authorNames commits) := by
      simpa using hp2
    have hl := (mem_iff_lookupCount (countsOf_keys_nodup _) p.1 p.2).mp hp3
    rw [lookupCount_countsOf] at hl
    by_cases hm : p.1 ∈ authorNames commits
    · rw [if_pos hm] at hl
      exact ⟨(Option.some_inj.mp hl).symm, hm⟩
    · rw [if_neg hm] at hl
      cases hl
  · intro n
    have h1 : List.Sublist
        (((top_contributors commits limit).filter (fun p => p.2 == n)).map Prod.fst)
        (((sortDescByCount (countsOf (authorNames commits))).filter
          (fun p => p.2 == n)).map Prod.fst) :=
      List.Sublist.map _ (List.Sublist.filter _ (List.take_sublist _ _))
    rw [filter_sortDescByCount] at h1
    have h2 : List.Sublist
        (((countsOf (authorNames commits)).filter (fun p => p.2 == n)).map Prod.fst)
        ((countsOf (authorNames commits)).map Prod.fst) :=
      List.Sublist.map _ (List.filter_sublist _)
    rw [countsOf_keys] at h2
    exact h1.trans h2

/-- C3 (witness): the spec-equivalence applied at a concrete question. -/
theorem C3_infer_time_window_matches_spec_witness :
    infer_time_window "deploy status" = inferWindowSpec "deploy status" :=
  C3_infer_time_window_matches_spec.1 "deploy status"

/-- C4 (witness): the spec applied to a concrete commit list — the returned
count for "bob" is the number of commits authored by "bob", and the result
length is bounded by the limit. -/
theorem C4_top_contributors_spec_witness :
    (("bob", (2 : Nat)).2 = (authorNames [⟨some "d1", some "bob"⟩, ⟨some "d2", some "bob"⟩]).count "bob") ∧
    (top_contributors [⟨some "d1", some "bob"⟩, ⟨some "d2", some "bob"⟩] 5).length ≤ 5 := by
  constructor
  · exact ((C4_top_contributors_spec [⟨some "d1", some "bob"⟩, ⟨some "d2", some "bob"⟩] 5).2.2.1
      ("bob", 2) (by decide)).1
  · exact (C4_top_contributors_spec [⟨some "d1", some "bob"⟩, ⟨some "d2", some "bob"⟩] 5).1

/-- C8 (counterexample): a commit whose author timestamp is present but not
ISO-parseable is not skipped — `_filter_commits_by_days` raises `ValueError`,
and so does `commits_per_week`, contradicting the claim that such commits are
skipped by filtering and still counted by the aggregations. -/
theorem C8_counterexample :
    _filter_commits_by_days [⟨some "not-a-date", some "alice"⟩] (some 7) 0 =
      .error "ValueError: invalid isoformat" ∧
    commits_per_week [⟨some "not-a-date", some "alice"⟩] =
      .error "ValueError: invalid isoformat" := by
  exact ⟨rfl, rfl⟩

/-- C8 (amended): commits whose author timestamp is absent (JSON null /
missing) or empty are skipped by window filtering without raising; a present
but unparseable timestamp makes filtering raise `ValueError`; and when no
filtering is requested, `top_contributors` counts every commit regardless of
its timestamp (the counts sum to the input length), and `commits_per_day`
returns normally and counts every commit as long as each timestamp is
present (parseable or not). -/
theorem C8_missing_timestamps (commits : List Commit) (c : Commit) (d : Nat) (now : Int) :
    ((c.date = none ∨ c.date = some "") →
       _filter_commits_by_days (c :: commits) (some d) now =
         _filter_commits_by_days commits (some d) now) ∧
    (∀ s, c.date = some s → s ≠ "" → fromisoformat (pyReplaceZ s) = none →
       _filter_commits_by_days (c :: commits) (some d) now =
         .error "ValueError: invalid isoformat") ∧
    sumCounts (countsOf (authorNames commits)) = commits.length ∧
    ((∀ c' ∈ commits, c'.date ≠ none) →
       ∃ l, commits_per_day commits = .ok l ∧ sumCounts l = commits.length) := by
  refine ⟨?_, ?_, ?_, ?_⟩
  · intro h
    unfold _filter_commits_by_days
    simp only [filterByDaysAux]
    rcases h with h | h
    · rw [h]
    · rw [h]
      dsimp only
      rw [if_pos rfl]
  · intro s hs hne hparse
    unfold _filter_commits_by_days
    simp only [filterByDaysAux]
    rw [hs]
    dsimp only
    rw [if_neg hne, hparse]
  · rw [sumCounts_countsOf]
    exact List.length_map _ _
  · intro h
    obtain ⟨ks, hks, hlen⟩ := dayKeysOf_isOk commits h
    refine ⟨sortByKey (countsOf ks), ?_, ?_⟩
    · unfold commits_per_day
      rw [hks, ebind_ok]
    · rw [sumCounts_sortByKey, sumCounts_countsOf, hlen]

/-- C8 (witness): the amended theorem applied to concrete inputs — one
date-less commit is skipped by the filter, and a present-but-garbage date
makes the filter raise. -/
theorem C8_missing_timestamps_witness :
    _filter_commits_by_days
        [⟨none, some "x"⟩, ⟨some "2025-01-01T00:00:00Z", some "y"⟩] (some 7) 0 =
      _filter_commits_by_days [⟨some "2025-01-01T00:00:00Z", some "y"⟩] (some 7) 0 ∧
    _filter_commits_by_days
        [⟨some "definitely not a date", some "z"⟩] (some 7) 0 =
      .error "ValueError: invalid isoformat" := by
  constructor
  · exact (C8_missing_timestamps [⟨some "2025-01-01T00:00:00Z", some "y"⟩]
      ⟨none, some "x"⟩ 7 0).1 (Or.inl rfl)
  · exact (C8_missing_timestamps [] ⟨some "definitely not a date", some "z"⟩ 7 0).2.1
      "definitely not a date" rfl (by decide) rfl

/-- C2 (counterexample): `commits_per_week` sorts keys as strings, not
chronologically — two commits in ISO weeks 9 and 10 of 2025 produce the key
order ["2025-W10", "2025-W9"], while ascending (ISO year, ISO week) order
would be ["2025-W9", "2025-W10"]; and a commit in year 500 yields the key
"500-W1", whose year part is not 4 digits. -/
theorem C2_counterexample :
    commits_per_week
        [⟨some "2025-02-25T12:00:00Z", some "a"⟩, ⟨some "2025-03-05T12:00:00Z", some "b"⟩]
      = .ok [("2025-W10", 1), ("2025-W9", 1)] ∧
    weekKeyOf ⟨some "2025-02-25T12:00:00Z", some "a"⟩ = some "2025-W9" ∧
    weekKeyOf ⟨some "2025-03-05T12:00:00Z", some "b"⟩ = some "2025-W10" ∧
    isocalendar 2025 2 25 = (2025, 9) ∧
    isocalendar 2025 3 5 = (2025, 10) ∧
    (["2025-W10", "2025-W9"] ≠ ["2025-W9", "2025-W10"]) ∧
    commits_per_week [⟨some "0500-01-08T00:00:00Z", some "a"⟩] = .ok [("500-W1", 1)] := by
  refine ⟨by decide, by decide, by decide, by decide, by decide, by decide, by decide⟩

/-- C2 (amended): whenever `commits_per_week` returns a mapping, it groups
commits by the ISO (year, week) of their parsed timestamp — a pair `(k, n)`
is in the result iff `n > 0` commits produce the key `k = f"{year}-W{week}"`
— the keys are sorted ascending as strings (lexicographically, which is what
`dict(sorted(...))` does — not chronologically), a commit on 2025-01-01 keys
as "2025-W1", and the function succeeds whenever every timestamp is present
and parseable. -/
theorem C2_per_week_grouping (commits : List Commit) (l : List (String × Nat))
    (hl : commits_per_week commits = .ok l) :
    (∀ k n, ((k, n) ∈ l ↔ 0 < n ∧ commits.countP (fun c => weekKeyOf c == some k) = n)) ∧
    l.Pairwise (fun a b => strLt a.1 b.1 = true) ∧
    weekKey ⟨2025, 1, 1, 0, 0, 0, some 0⟩ = "2025-W1" ∧
    ((∀ c ∈ commits, (weekKeyOf c).isSome) → ∃ l', commits_per_week commits = .ok l') := by
  have hks : ∃ ks, weekKeysOf commits = .ok ks ∧ l = sortByKey (countsOf ks) := by
    unfold commits_per_week at hl
    cases hw : weekKeysOf commits with
    | error e =>
      rw [hw, ebind_err] at hl
      cases hl
    | ok ks =>
      rw [hw, ebind_ok] at hl
      exact ⟨ks, rfl, (Except.ok.inj hl).symm⟩
  obtain ⟨ks, hw, rfl⟩ := hks
  refine ⟨?_, sortByKey_pairwise _ (countsOf_keys_nodup ks), rfl, fun _ => ⟨_, hl⟩⟩
  intro k n
  rw [mem_sortByKey, mem_iff_lookupCount (countsOf_keys_nodup ks) k n,
    lookupCount_countsOf, ← weekKeysOf_count commits ks hw k]
  by_cases hm : k ∈ ks
  · rw [if_pos hm]
    constructor
    · intro he
      have hn := Option.some_inj.mp he
      exact ⟨hn ▸ List.count_pos_iff.mpr hm, hn⟩
    · rintro ⟨_, rfl⟩
      rfl
  · rw [if_neg hm]
    constructor
    · intro he
      cases he
    · rintro ⟨hpos, rfl⟩
      rw [List.count_eq_zero.mpr hm] at hpos
      cases hpos

/-- C2 (witness): the amended theorem applied to a one-commit list — the
commit on 2025-01-01 is counted once under the key "2025-W1". -/
theorem C2_per_week_grouping_witness :
    0 < 1 ∧ List.countP (fun c => weekKeyOf c == some "2025-W1")
        [(⟨some "2025-01-01T00:00:00Z", some "a"⟩ : Commit)] = 1 :=
  ((C2_per_week_grouping [⟨some "2025-01-01T00:00:00Z", some "a"⟩] [("2025-W1", 1)] rfl).1
      "2025-W1" 1).mp (by simp)

/-! ## Lemmas: the flat file cache -/

theorem lookupFile_setFile_self (p : String) (c : Option Json) :
    ∀ files, lookupFile p (setFile p c files) = some c := by
  intro files
  induction files with
  | nil => simp [setFile, lookupFile]
  | cons f rest ih =>
    obtain ⟨q, d⟩ := f
    by_cases h : q = p
    · subst h
      simp [setFile, lookupFile]
    · simp [setFile, lookupFile, h, ih]

theorem ensure_dir_files (p : String) (fs : FS) : (ensure_dir p fs).files = fs.files := by
  unfold ensure_dir
  split <;> rfl

theorem mem_ensure_dir (p : String) (fs : FS) : p ∈ (ensure_dir p fs).dirs := by
  unfold ensure_dir
  split
  · assumption
  · simp

theorem load_cache_state (key folder : String) (fs : FS) :
    (load_cache key folder fs).2 = ensure_dir (pathJoin CACHE_DIR folder) fs := by
  unfold load_cache cache_path
  dsimp only
  split <;> rfl

/-- C6: saving a JSON value and loading it back under the same (key, folder)
returns that value; loading a key whose cache file does not exist returns
`none` rather than raising; and loading a file whose contents cannot be read
or parsed (the bare `except:` path) also returns `none`. -/
theorem C6_cache_round_trip (key folder : String) (v : Json) (fs : FS) :
    (load_cache key folder (save_cache key folder v fs)).1 = some v ∧
    (lookupFile (cache_path key folder fs).1 fs.files = none →
      (load_cache key folder fs).1 = none) ∧
    (lookupFile (cache_path key folder fs).1 fs.files = some none →
      (load_cache key folder fs).1 = none) := by
  refine ⟨?_, ?_, ?_⟩
  · unfold load_cache save_cache cache_path
    simp only [ensure_dir_files, lookupFile_setFile_self]
  · intro h
    unfold load_cache cache_path
    unfold cache_path at h
    simp only [ensure_dir_files]
    rw [h]
  · intro h
    unfold load_cache cache_path
    unfold cache_path at h
    simp only [ensure_dir_files]
    rw [h]

/-- C6 (witness): the round trip and the absent-key case on a concrete
filesystem. -/
theorem C6_cache_round_trip_witness :
    (load_cache "k" "f" (save_cache "k" "f" (Json.num 7) ⟨[], []⟩)).1 = some (Json.num 7) ∧
    (load_cache "k" "f" ⟨[], []⟩).1 = none :=
  ⟨(C6_cache_round_trip "k" "f" (Json.num 7) ⟨[], []⟩).1,
   (C6_cache_round_trip "k" "f" (Json.num 7) ⟨[], []⟩).2.1 rfl⟩

/-- C9 (counterexample): a `load` on a never-saved key does NOT leave the
filesystem unchanged — `load_cache` goes through `cache_path`, which calls
`ensure_dir`, so the folder `cache/f` is created by the load itself. -/
theorem C9_counterexample :
    (load_cache "k" "f" ⟨[], []⟩).2.dirs = ["cache/f"] ∧
    (⟨[], []⟩ : FS).dirs ≠ ["cache/f"] := by
  exact ⟨rfl, by simp⟩

/-- C9 (amended): the cache folder is created lazily on first access, not
first write: both `load_cache` and `save_cache` ensure the folder exists via
`cache_path`.  A load never touches the files, and if the folder already
exists a load leaves the filesystem entirely unchanged. -/
theorem C9_folder_created_on_access (key folder : String) (v : Json) (fs : FS) :
    (load_cache key folder fs).2.files = fs.files ∧
    pathJoin CACHE_DIR folder ∈ (load_cache key folder fs).2.dirs ∧
    pathJoin CACHE_DIR folder ∈ (save_cache key folder v fs).dirs ∧
    (pathJoin CACHE_DIR folder ∈ fs.dirs → (load_cache key folder fs).2 = fs) := by
  refine ⟨?_, ?_, ?_, ?_⟩
  · rw [load_cache_state]
    exact ensure_dir_files _ _
  · rw [load_cache_state]
    exact mem_ensure_dir _ _
  · show pathJoin CACHE_DIR folder ∈ (ensure_dir (pathJoin CACHE_DIR folder) fs).dirs
    exact mem_ensure_dir _ _
  · intro h
    rw [load_cache_state]
    unfold ensure_dir
    rw [if_pos h]

/-- C9 (witness): on a filesystem where the folder already exists, a load
changes nothing, and the folder is present after the load. -/
theorem C9_folder_created_on_access_witness :
    (load_cache "k" "f" ⟨["cache/f"], []⟩).2 = (⟨["cache/f"], []⟩ : FS) ∧
    "cache/f" ∈ (load_cache "k" "f" ⟨["cache/f"], []⟩).2.dirs := by
  constructor
  · exact (C9_folder_created_on_access "k" "f" Json.null ⟨["cache/f"], []⟩).2.2.2 (by decide)
  · exact (C9_folder_created_on_access "k" "f" Json.null ⟨["cache/f"], []⟩).2.1

/-! ## Lemmas: the vector store -/

theorem zip3_fst_mem {M : Type} :
    ∀ (as bs : List String) (cs : List M) (e : String × String × M),
      e ∈ zip3 as bs cs → e.1 ∈ as := by
  intro as
  induction as with
  | nil =>
    intro bs cs e he
    cases bs <;> cases cs <;> simp [zip3] at he
  | cons a as ih =>
    intro bs cs e he
    cases bs with
    | nil => simp [zip3] at he
    | cons b bs =>
      cases cs with
      | nil => simp [zip3] at he
      | cons c cs =>
        simp only [zip3, List.mem_cons] at he
        rcases he with rfl | he
        · simp
        · exact List.mem_cons_of_mem _ (ih bs cs e he)

theorem zip3_map_fst {M : Type} :
    ∀ (as bs : List String) (cs : List M), as.length = bs.length →
      bs.length = cs.length → (zip3 as bs cs).map (fun e => e.1) = as := by
  intro as
  induction as with
  | nil =>
    intro bs cs h1 _
    cases bs with
    | nil => cases cs <;> simp [zip3]
    | cons b bs => simp at h1
  | cons a as ih =>
    intro bs cs h1 h2
    cases bs with
    | nil => simp at h1
    | cons b bs =>
      cases cs with
      | nil => simp at h2
      | cons c cs =>
        simp only [zip3, List.map_cons]
        rw [ih bs cs (by simpa using h1) (by simpa using h2)]

theorem lookupEntry_setEntry_self {M : Type} (e : String × String × M) :
    ∀ st, lookupEntry e.1 (setEntry e st) = some e.2 := by
  intro st
  induction st with
  | nil => simp [setEntry, lookupEntry]
  | cons x rest ih =>
    by_cases h : x.1 = e.1
    · simp [setEntry, lookupEntry, h]
    · simp [setEntry, lookupEntry, h, ih]

theorem lookupEntry_setEntry_ne {M : Type} (x : String) (e : String × String × M)
    (h : x ≠ e.1) : ∀ st, lookupEntry x (setEntry e st) = lookupEntry x st := by
  have h' : e.1 ≠ x := fun he => h he.symm
  intro st
  induction st with
  | nil => simp [setEntry, lookupEntry, h']
  | cons y rest ih =>
    by_cases hy : y.1 = e.1
    · simp [setEntry, lookupEntry, hy, h']
    · by_cases hx : y.1 = x
      · simp [setEntry, lookupEntry, hy, hx, h, h']
      · simp [setEntry, lookupEntry, hy, hx, ih]

theorem collection_upsert_cons {M : Type} (e : String × String × M) (es : List _)
    (st : List (String × String × M)) :
    collection_upsert (e :: es) st = collection_upsert es (setEntry e st) := rfl

theorem collection_upsert_frame {M : Type} :
    ∀ (entries : List (String × String × M)) (st : List (String × String × M))
      (x : String), (∀ e ∈ entries, x ≠ e.1) →
        lookupEntry x (collection_upsert entries st) = lookupEntry x st := by
  intro entries
  induction entries with
  | nil =>
    intro st x _
    rfl
  | cons e es ih =>
    intro st x h
    rw [collection_upsert_cons, ih (setEntry e st) x (fun e' he' => h e' (List.mem_cons_of_mem e he')),
      lookupEntry_setEntry_ne x e (h e (List.mem_cons_self e es))]

theorem collection_upsert_lookup {M : Type} :
    ∀ (entries : List (String × String × M)) (st : List (String × String × M))
      (a : String) (b : String) (c : M),
      ((entries.map fun e => e.1).Nodup) → (a, b, c) ∈ entries →
        lookupEntry a (collection_upsert entries st) = some (b, c) := by
  intro entries
  induction entries with
  | nil =>
    intro st a b c _ hm
    simp at hm
  | cons e es ih =>
    intro st a b c hnd hm
    simp only [List.map_cons, List.nodup_cons] at hnd
    rw [collection_upsert_cons]
    rcases List.mem_cons.mp hm with rfl | hm
    · rw [collection_upsert_frame es (setEntry (a, b, c) st) a ?_]
      · exact lookupEntry_setEntry_self (a, b, c) st
      · intro e' he' he
        exact hnd.1 (List.mem_map.mpr ⟨e', he', he.symm⟩)
    · exact ih (setEntry e st) a b c hnd.2 hm

/-- C5 (counterexample): `upsert_documents` with empty ids but mismatched
lengths is a silent no-op, not a ShapeMismatch failure — the empty-input
check runs before the length check. -/
theorem C5_counterexample :
    upsert_documents ([] : List String) ["t"] ([] : List Json) = .ok (.noop, 0) ∧
    ¬ (([] : List String).length = (["t"] : List String).length) := by
  exact ⟨rfl, by decide⟩

/-- C5 (amended): `upsert_documents` is a no-op (and never calls the
embedding service) whenever `ids` is empty, even if the lengths disagree;
with non-empty `ids` a length mismatch fails with the ShapeMismatch
`ValueError`; otherwise all texts are embedded in exactly one batch call and
the rows are upserted keyed by id with overwrite semantics: ids not in the
batch keep their old entry, and with distinct ids each id maps to its new
(text, metadata) row. -/
theorem C5_upsert_documents_spec {M : Type} (ids texts : List String) (metadatas : List M)
    (store : List (String × String × M)) :
    (ids = [] → upsert_documents ids texts metadatas = .ok (.noop, 0)) ∧
    (ids ≠ [] → ¬ (ids.length = texts.length ∧ texts.length = metadatas.length) →
      upsert_documents ids texts metadatas =
        .error "ids, texts, metadatas must have same length") ∧
    (ids ≠ [] → ids.length = texts.length → texts.length = metadatas.length →
      upsert_documents ids texts metadatas = .ok (.stored (zip3 ids texts metadatas), 1)) ∧
    (∀ x : String, x ∉ ids →
      lookupEntry x (collection_upsert (zip3 ids texts metadatas) store) =
        lookupEntry x store) ∧
    (ids.Nodup → ids.length = texts.length → texts.length = metadatas.length →
      ∀ a b c, (a, b, c) ∈ zip3 ids texts metadatas →
        lookupEntry a (collection_upsert (zip3 ids texts metadatas) store) = some (b, c)) := by
  refine ⟨?_, ?_, ?_, ?_, ?_⟩
  · intro h
    subst h
    rfl
  · intro h hne
    unfold upsert_documents
    rw [if_neg (by simpa [List.isEmpty_iff] using h), if_neg hne]
  · intro h h1 h2
    unfold upsert_documents
    rw [if_neg (by simpa [List.isEmpty_iff] using h), if_pos ⟨h1, h2⟩]
  · intro x hx
    exact collection_upsert_frame _ store x
      (fun e he hxe => hx (hxe ▸ zip3_fst_mem ids texts metadatas e he))
  · intro hnd h1 h2 a b c hm
    refine collection_upsert_lookup _ store a b c ?_ hm
    rw [zip3_map_fst ids texts metadatas h1 h2]
    exact hnd

/-- C5 (witness): the amended theorem on a concrete well-shaped batch — one
row is stored, one embedding call is made, and the lookup returns the new
row. -/
theorem C5_upsert_documents_spec_witness :
    upsert_documents ["a"] ["t"] [Json.null] = .ok (.stored [("a", "t", Json.null)], 1) ∧
    lookupEntry "a" (collection_upsert (zip3 ["a"] ["t"] [Json.null])
      ([] : List (String × String × Json))) = some ("t", Json.null) := by
  constructor
  · exact (C5_upsert_documents_spec ["a"] ["t"] [Json.null] []).2.2.1 (by simp) rfl rfl
  · exact (C5_upsert_documents_spec ["a"] ["t"] [Json.null] []).2.2.2.2 (by simp) rfl rfl
      "a" "t" Json.null (by simp [zip3])

/-! ## Lemmas: the answering pipeline -/

theorem metrics_block_empty (commits : List Commit) (days : Option Nat) (now : Int)
    (h : _filter_commits_by_days commits days now = .ok []) :
    _build_metrics_block commits days now = .ok ⟨0, [], [], []⟩ := by
  unfold _build_metrics_block
  rw [h, ebind_ok]
  rfl

/-- C1: whenever the commit list filtered to the inferred time window is
empty, `answer_question` returns the canned result — answer exactly
"No activity in this period.", empty used_context — and the generation
service is invoked zero times on that run. -/
theorem C1_answer_question_no_activity (commits : List Commit) (queryRes : QueryResult)
    (llmAnswer repo_full_name question : String) (k : Nat) (now : Int)
    (h : _filter_commits_by_days commits (infer_time_window question) now = .ok []) :
    answer_question commits queryRes llmAnswer repo_full_name question k now =
      .ok (⟨repo_full_name, question, infer_time_window question,
            "No activity in this period.", ⟨0, [], [], []⟩, []⟩, 0) := by
  unfold answer_question
  dsimp only
  rw [metrics_block_empty commits _ now h, ebind_ok]
  rfl

/-- C1 (witness): a repository whose commit list is empty (so the filtered
list is empty for the inferred 30-day window) yields the canned result and
zero generation calls. -/
theorem C1_answer_question_no_activity_witness :
    answer_question [] ⟨none⟩ "llm-ans" "o/r" "what changed?" 15 0 =
      .ok (⟨"o/r", "what changed?", some 30, "No activity in this period.",
            ⟨0, [], [], []⟩, []⟩, 0) :=
  C1_answer_question_no_activity [] ⟨none⟩ "llm-ans" "o/r" "what changed?" 15 0 rfl

/-- C10: when the filtered commit count is non-zero but the vector-index
query result has a missing or empty "documents" field, the pipeline does not
fail: it proceeds with an empty snippet list, invokes the generation service
exactly once, and returns a result whose used_context is empty. -/
theorem C10_empty_documents (commits : List Commit) (queryRes : QueryResult)
    (llmAnswer repo_full_name question : String) (k : Nat) (now : Int) (m : MetricsBlock)
    (h1 : _build_metrics_block commits (infer_time_window question) now = .ok m)
    (h2 : m.total_commits_recent ≠ 0)
    (h3 : queryRes.documents = none ∨ queryRes.documents = some []) :
    answer_question commits queryRes llmAnswer repo_full_name question k now =
      .ok (⟨repo_full_name, question, infer_time_window question, llmAnswer, m, []⟩, 1) := by
  have hsnip : _build_context_snippets queryRes = [] := by
    rcases h3 with h | h <;> simp [_build_context_snippets, h]
  unfold answer_question
  dsimp only
  rw [h1, ebind_ok]
  rw [if_neg h2, hsnip]
  simp

/-- C10 (witness): one recent commit, a query result with no documents — the
pipeline returns normally with one generation call and empty used_context. -/
theorem C10_empty_documents_witness :
    answer_question [⟨some "2025-01-01T00:00:00Z", some "alice"⟩] ⟨none⟩
        "llm-ans" "o/r" "why" 15 0 =
      .ok (⟨"o/r", "why", none, "llm-ans",
            ⟨1, [("2025-01-01", 1)], [("2025-W1", 1)], [("alice", 1)]⟩, []⟩, 1) :=
  C10_empty_documents [⟨some "2025-01-01T00:00:00Z", some "alice"⟩] ⟨none⟩
    "llm-ans" "o/r" "why" 15 0 ⟨1, [("2025-01-01", 1)], [("2025-W1", 1)], [("alice", 1)]⟩
    (by decide) (by decide) (Or.inl rfl)

/-! ## Lemmas: pagination -/

theorem pagesData_zero (pages : Nat → PageResp) (start : Nat) :
    pagesData pages start 0 = [] := by
  simp [pagesData]

theorem pagesData_succ (pages : Nat → PageResp) (start m : Nat) :
    pagesData pages start (m + 1) = (pages start).data ++ pagesData pages (start + 1) m := by
  have h : List.range' start (m + 1) = start :: List.range' (start + 1) m := rfl
  simp [pagesData, h]

theorem fetch_pages_concat (pages : Nat → PageResp) :
    ∀ (m page fuel : Nat) (acc : List Json),
      (∀ p, page ≤ p → p < page + m → (pages p).ok = true ∧ (pages p).data ≠ []) →
      (pages (page + m)).ok = true → (pages (page + m)).data = [] → m < fuel →
      fetch_pages pages fuel page acc = .ok (some (acc ++ pagesData pages page m)) := by
  intro m
  induction m with
  | zero =>
    intro page fuel acc _ hok hemp hf
    cases fuel with
    | zero => omega
    | succ f =>
      rw [Nat.add_zero] at hok hemp
      simp [fetch_pages, hok, hemp, pagesData_zero]
  | succ m ih =>
    intro page fuel acc hmid hok hemp hf
    cases fuel with
    | zero => omega
    | succ f =>
      have hp := hmid page (le_refl page) (by omega)
      simp only [fetch_pages, hp.1, Bool.true_eq_false, if_false]
      rw [if_neg (by simpa [List.isEmpty_iff] using hp.2)]
      rw [ih (page + 1) f (acc ++ (pages page).data)
        (fun p h1 h2 => hmid p (by omega) (by omega))
        (by rw [show page + 1 + m = page + (m + 1) from by omega]; exact hok)
        (by rw [show page + 1 + m = page + (m + 1) from by omega]; exact hemp)
        (by omega)]
      rw [pagesData_succ, List.append_assoc]

theorem fetch_pages_abort (pages : Nat → PageResp) :
    ∀ (m page fuel : Nat) (acc : List Json),
      (∀ p, page ≤ p → p < page + m → (pages p).ok = true ∧ (pages p).data ≠ []) →
      (pages (page + m)).ok = false → m < fuel →
      fetch_pages pages fuel page acc =
        .error (upErrMsg (pages (page + m)).status (pages (page + m)).body) := by
  intro m
  induction m with
  | zero =>
    intro page fuel acc _ hok hf
    cases fuel with
    | zero => omega
    | succ f =>
      rw [Nat.add_zero] at hok
      simp [fetch_pages, hok]
  | succ m ih =>
    intro page fuel acc hmid hok hf
    cases fuel with
    | zero => omega
    | succ f =>
      have hp := hmid page (le_refl page) (by omega)
      simp only [fetch_pages, hp.1, Bool.true_eq_false, if_false]
      rw [if_neg (by simpa [List.isEmpty_iff] using hp.2)]
      rw [ih (page + 1) f (acc ++ (pages page).data)
        (fun p h1 h2 => hmid p (by omega) (by omega))
        (by rw [show page + 1 + m = page + (m + 1) from by omega]; exact hok)
        (by omega)]
      rw [show page + 1 + m = page + (m + 1) from by omega]

/-- C7 (counterexample): `get_contributors` issues a single request and does
not paginate — with an upstream whose pages are ["c1"], ["c2"], [] it returns
only ["c1"], while paging-until-empty concatenates to ["c1","c2"]; and a
cached empty list is treated as a miss, not a hit — `get_commits` refetches
and returns ["c1","c2"] instead of the cached []. -/
theorem C7_counterexample :
    get_contributors (c7pages 1) "o" "r" ⟨[], []⟩ =
      .ok (Json.arr [Json.str "c1"],
        ⟨["cache/contributors"],
         [("cache/contributors/o_r_contributors.json", some (Json.arr [Json.str "c1"]))]⟩) ∧
    fetch_pages c7pages 10 1 [] = .ok (some [Json.str "c1", Json.str "c2"]) ∧
    Json.arr [Json.str "c1"] ≠ Json.arr [Json.str "c1", Json.str "c2"] ∧
    get_commits c7pages "o" "r" 10
        ⟨["cache/commits"], [("cache/commits/o_r_commits.json", some (Json.arr []))]⟩ =
      .ok (some (Json.arr [Json.str "c1", Json.str "c2"],
        ⟨["cache/commits"],
         [("cache/commits/o_r_commits.json",
           some (Json.arr [Json.str "c1", Json.str "c2"]))]⟩)) ∧
    Json.arr [Json.str "c1", Json.str "c2"] ≠ Json.arr [] := by
  refine ⟨rfl, rfl, by simp, rfl, by simp⟩

/-- C7 (amended): `get_commits` and `get_pull_requests` check the cache
first under key `{owner}_{repo}_{kind}` — a *truthy* cached value (e.g. a
non-empty list) is returned as-is, with the same result for every upstream,
while a falsy one (missing, unparseable, or an empty list) is a miss — and on
a miss they request successive pages until an empty page is returned,
concatenate, and save; any page with a non-success status aborts the fetch
with the error carrying the status and body.  `get_contributors` is
cache-checked the same way but issues a single request (no pagination): a
non-success status aborts with status and body, otherwise the single
response body is the result. -/
theorem C7_fetch_caching (pages : Nat → PageResp) (owner repo : String) (fuel m : Nat)
    (fs : FS) (v : Json) (resp : PageResp) :
    ((load_cache (owner ++ "_" ++ repo ++ "_commits") "commits" fs).1 = some v →
      v.truthy = true →
      get_commits pages owner repo fuel fs =
        .ok (some (v, (load_cache (owner ++ "_" ++ repo ++ "_commits") "commits" fs).2))) ∧
    (cachedTruthy (load_cache (owner ++ "_" ++ repo ++ "_commits") "commits" fs).1 = false →
      (∀ p, 1 ≤ p → p < 1 + m → (pages p).ok = true ∧ (pages p).data ≠ []) →
      (pages (1 + m)).ok = true → (pages (1 + m)).data = [] → m < fuel →
      get_commits pages owner repo fuel fs =
        .ok (some (Json.arr (pagesData pages 1 m),
          save_cache (owner ++ "_" ++ repo ++ "_commits") "commits"
            (Json.arr (pagesData pages 1 m))
            (load_cache (owner ++ "_" ++ repo ++ "_commits") "commits" fs).2))) ∧
    (cachedTruthy (load_cache (owner ++ "_" ++ repo ++ "_commits") "commits" fs).1 = false →
      (∀ p, 1 ≤ p → p < 1 + m → (pages p).ok = true ∧ (pages p).data ≠ []) →
      (pages (1 + m)).ok = false → m < fuel →
      get_commits pages owner repo fuel fs =
        .error (upErrMsg (pages (1 + m)).status (pages (1 + m)).body)) ∧
    ((load_cache (owner ++ "_" ++ repo ++ "_prs") "prs" fs).1 = some v →
      v.truthy = true →
      get_pull_requests pages owner repo fuel fs =
        .ok (some (v, (load_cache (owner ++ "_" ++ repo ++ "_prs") "prs" fs).2))) ∧
    (cachedTruthy (load_cache (owner ++ "_" ++ repo ++ "_prs") "prs" fs).1 = false →
      (∀ p, 1 ≤ p → p < 1 + m → (pages p).ok = true ∧ (pages p).data ≠ []) →
      (pages (1 + m)).ok = true → (pages (1 + m)).data = [] → m < fuel →
      get_pull_requests pages owner repo fuel fs =
        .ok (some (Json.arr (pagesData pages 1 m),
          save_cache (owner ++ "_" ++ repo ++ "_prs") "prs"
            (Json.arr (pagesData pages 1 m))
            (load_cache (owner ++ "_" ++ repo ++ "_prs") "prs" fs).2))) ∧
    (cachedTruthy (load_cache (owner ++ "_" ++ repo ++ "_prs") "prs" fs).1 = false →
      (∀ p, 1 ≤ p → p < 1 + m → (pages p).ok = true ∧ (pages p).data ≠ []) →
      (pages (1 + m)).ok = false → m < fuel →
      get_pull_requests pages owner repo fuel fs =
        .error (upErrMsg (pages (1 + m)).status (pages (1 + m)).body)) ∧
    ((load_cache (owner ++ "_" ++ repo ++ "_contributors") "contributors" fs).1 = some v →
      v.truthy = true →
      get_contributors resp owner repo fs =
        .ok (v, (load_cache (owner ++ "_" ++ repo ++ "_contributors") "contributors" fs).2)) ∧
    (cachedTruthy (load_cache (owner ++ "_" ++ repo ++ "_contributors") "contributors" fs).1
        = false → resp.ok = true →
      get_contributors resp owner repo fs =
        .ok (Json.arr resp.data,
          save_cache (owner ++ "_" ++ repo ++ "_contributors") "contributors"
            (Json.arr resp.data)
            (load_cache (owner ++ "_" ++ repo ++ "_contributors") "contributors" fs).2)) ∧
    (cachedTruthy (load_cache (owner ++ "_" ++ repo ++ "_contributors") "contributors" fs).1
        = false → resp.ok = false →
      get_contributors resp owner repo fs =
        .error (upErrMsg resp.status resp.body)) := by
  refine ⟨?_, ?_, ?_, ?_, ?_, ?_, ?_, ?_, ?_⟩
  · intro hv ht
    unfold get_commits
    dsimp only
    rw [hv]
    simp [cachedTruthy, ht]
  · intro hmiss hmid hok hemp hf
    unfold get_commits
    dsimp only
    rw [hmiss]
    simp only [Bool.false_eq_true, if_false]
    rw [fetch_pages_concat pages m 1 fuel [] hmid hok hemp hf]
    simp
  · intro hmiss hmid hok hf
    unfold get_commits
    dsimp only
    rw [hmiss]
    simp only [Bool.false_eq_true, if_false]
    rw [fetch_pages_abort pages m 1 fuel [] hmid hok hf]
  · intro hv ht
    unfold get_pull_requests
    dsimp only
    rw [hv]
    simp [cachedTruthy, ht]
  · intro hmiss hmid hok hemp hf
    unfold get_pull_requests
    dsimp only
    rw [hmiss]
    simp only [Bool.false_eq_true, if_false]
    rw [fetch_pages_concat pages m 1 fuel [] hmid hok hemp hf]
    simp
  · intro hmiss hmid hok hf
    unfold get_pull_requests
    dsimp only
    rw [hmiss]
    simp only [Bool.false_eq_true, if_false]
    rw [fetch_pages_abort pages m 1 fuel [] hmid hok hf]
  · intro hv ht
    unfold get_contributors
    dsimp only
    rw [hv]
    simp [cachedTruthy, ht]
  · intro hmiss hok
    unfold get_contributors
    dsimp only
    rw [hmiss]
    simp [hok]
  · intro hmiss hok
    unfold get_contributors
    dsimp only
    rw [hmiss]
    simp [hok]

/-- C7 (witness): on an empty filesystem (cache miss) the amended theorem
yields the concrete paginated fetch-and-save run for `get_commits`, and the
single-request run for `get_contributors`. -/
theorem C7_fetch_caching_witness :
    get_commits c7pages "o" "r" 10 ⟨[], []⟩ =
      .ok (some (Json.arr (pagesData c7pages 1 2),
        save_cache "o_r_commits" "commits" (Json.arr (pagesData c7pages 1 2))
          (load_cache "o_r_commits" "commits" ⟨[], []⟩).2)) ∧
    get_contributors (c7pages 1) "o" "r" ⟨[], []⟩ =
      .ok (Json.arr (c7pages 1).data,
        save_cache "o_r_contributors" "contributors" (Json.arr (c7pages 1).data)
          (load_cache "o_r_contributors" "contributors" ⟨[], []⟩).2) := by
  constructor
  · refine (C7_fetch_caching c7pages "o" "r" 10 2 ⟨[], []⟩ Json.null (c7pages 1)).2.1
      rfl ?_ rfl rfl (by omega)
    intro p h1 h2
    interval_cases p
    · exact ⟨rfl, by simp [c7pages]⟩
    · exact ⟨rfl, by simp [c7pages]⟩
  · exact (C7_fetch_caching c7pages "o" "r" 10 2 ⟨[], []⟩ Json.null (c7pages 1)).2.2.2.2.2.2.2.1
      rfl rfl

end GHInsights
